import Mathlib

/-!
# Verification of the marmots effective-area core

Shallow embedding of `src/marmots/effective_area.py` (`calculate`) and
`src/marmots/tauola.py` (the TAUOLA decay sampler) over exact rationals.

Modelling conventions:
* numpy float arrays become `List ℚ`; 3-vectors become `Vec3 = ℚ × ℚ × ℚ`.
* Randomness (`np.random.uniform`, `np.random.exponential`) is modelled by
  explicit draw streams `ℕ → ℚ`: call site number `i` consumes draw `i`.
  A stream models the sequence of uniform draws in `[0,1)` (respectively
  unit-mean exponential draws, which scale linearly with the requested mean).
* External collaborator modules (`marmots.geometry`, `marmots.antenna`, the
  `tauexit` lookup and the `voltage` model) are out of scope per the spec and
  enter as oracle function parameters, invoked with exactly the arguments the
  source passes.
* The irrational real operations the source applies before handing values to
  oracles (`np.rad2deg`, `np.pi/2`, `np.linalg.norm`) cannot be functions
  `ℚ → ℚ`; they are abstracted into a `RealOps` parameter.  Concrete theorems
  instantiate `norm3` with the exact Euclidean norms of every vector that the
  run actually reaches (all chosen to have rational norms).
* numpy masked arrays (the exit probability) become `List (Option ℚ)`,
  `none` marking a masked (no-tau-exits) entry.
-/

/-- A 3-dimensional vector of rationals. -/
abbrev Vec3 : Type := ℚ × ℚ × ℚ

/-- Componentwise vector addition. -/
def add3 (a b : Vec3) : Vec3 := (a.1 + b.1, a.2.1 + b.2.1, a.2.2 + b.2.2)

/-- Componentwise vector subtraction. -/
def sub3 (a b : Vec3) : Vec3 := (a.1 - b.1, a.2.1 - b.2.1, a.2.2 - b.2.2)

/-- Scalar multiple of a vector. -/
def smul3 (c : ℚ) (a : Vec3) : Vec3 := (c * a.1, c * a.2.1, c * a.2.2)

/-- numpy boolean-mask selection `arr[mask]`: keep the entries at the
positions where the mask is `true`, in order. -/
def maskedSelect {α : Type} : List α → List Bool → List α
  | [], _ => []
  | _ :: _, [] => []
  | a :: arr, true :: ms => a :: maskedSelect arr ms
  | _ :: arr, false :: ms => maskedSelect arr ms

/-- numpy boolean-mask assignment `arr[mask] = vals` (a `__setitem__` on `arr`
itself): the positions where the mask is `true` receive the successive
entries of `vals`; all other positions keep their previous value. -/
def maskedAssign : List ℚ → List Bool → List ℚ → List ℚ
  | [], _, _ => []
  | _ :: arr, true :: ms, v :: vs => v :: maskedAssign arr ms vs
  | a :: arr, true :: ms, [] => a :: maskedAssign arr ms []
  | a :: arr, false :: ms, vs => a :: maskedAssign arr ms vs
  | a :: arr, [], _ => a :: arr

/-- Models the numpy statement `arr[mask1][mask2] = v` where `mask1` is a
boolean mask: boolean (advanced) indexing `arr[mask1]` returns a COPY, so the
subsequent element assignment mutates only that temporary copy and the array
`arr` itself is left unchanged.  (Contrast with `maskedAssign`, which models a
direct `arr[mask] = vals` setitem.)  This is the exact semantics of
`Ptrig[i][in_sight][invisible] = 0.0` in `effective_area.py`. -/
def chainedMaskAssign (arr : List ℚ) (mask1 mask2 : List Bool) (v : ℚ) : List ℚ :=
  let _tmp := maskedAssign (maskedSelect arr mask1) mask2
    (List.replicate (maskedSelect arr mask1).length v)
  arr

/-- Mean of a numpy masked array (`np.mean` on a masked array): the mean of
the unmasked entries only.  The degenerate all-masked case (which numpy
reports as a masked constant) is modelled as `0` via rational division by
zero; no theorem below relies on that degenerate value. -/
def maskedMean (ps : List (Option ℚ)) : ℚ :=
  (ps.filterMap id).sum / ((ps.filterMap id).length : ℚ)

/-- `np.interp x (np.arange K) fp` for `K = fp.length`: linear interpolation
of the abscissa `x` against the sample points `0, 1, ..., K-1` paired with the
ordinates `fp`, clamping abscissae outside `[0, K-1]` to the nearest
endpoint.  (`np.interp` with an empty sample list is an error in numpy; it is
modelled as `0` and every theorem below requires the list to be nonempty.) -/
def npInterpArange (fp : List ℚ) (x : ℚ) : ℚ :=
  if fp.length = 0 then 0
  else if x ≤ 0 then fp.getD 0 0
  else if ((fp.length : ℚ) - 1) ≤ x then fp.getD (fp.length - 1) 0
  else
    let j := (⌊x⌋).toNat
    fp.getD j 0 + (x - (j : ℚ)) * (fp.getD (j + 1) 0 - fp.getD j 0)

/-! ## The TAUOLA decay table (`tauola.py`)

The decay file `tauola_decay.dat` is loaded once at import; its rows carry
the fractional energies of six final-state channels.  The file itself is
external data, so the embedding takes the row list as a parameter and defines
the derived read-only statistics exactly as the module body does. -/

/-- One row of the TAUOLA decay file: fractional energy transferred into each
of the six final-state channels. -/
structure DecayRow where
  nu_tau : ℚ
  nu_mu : ℚ
  nu_e : ℚ
  hadron : ℚ
  muon : ℚ
  electron : ℚ

/-- The `ShowerType` enum from `poinsseta`: `Hadronic = 0`,
`Electromagnetic = 1` (integer representation, as stored in the sampled
`stypes` arrays). -/
def ShowerType.Hadronic : ℕ := 0

/-- `ShowerType.Electromagnetic = 1`; see `ShowerType.Hadronic`. -/
def ShowerType.Electromagnetic : ℕ := 1

/-- The electron column entries with nonzero (positive) energy transfer:
`decays["electron"][decays["electron"] > 0.0]`. -/
def emFracs (rows : List DecayRow) : List ℚ :=
  (rows.map DecayRow.electron).filter (fun e => decide (0 < e))

/-- The hadron column entries with nonzero (positive) energy transfer:
`decays["hadron"][decays["hadron"] > 0.0]`. -/
def hadFracs (rows : List DecayRow) : List ℚ :=
  (rows.map DecayRow.hadron).filter (fun e => decide (0 < e))

/-- `Nem = np.sum(decays["electron"] > 0.0)`: the number of rows with an
electromagnetic shower. -/
def NemT (rows : List DecayRow) : ℕ := (emFracs rows).length

/-- `Nhad = np.sum(decays["hadron"] > 0.0)`: the number of rows with a
hadronic shower. -/
def NhadT (rows : List DecayRow) : ℕ := (hadFracs rows).length

/-- `Nshowers = np.sum(np.logical_or(electron > 0, hadron > 0))`: the number
of rows with a shower of either kind. -/
def NshowersT (rows : List DecayRow) : ℕ :=
  (rows.filter (fun r => decide (0 < r.electron) || decide (0 < r.hadron))).length

/-- `Eem = np.sort(...)`: the nonzero electromagnetic fractions in ascending
order. -/
def EemT (rows : List DecayRow) : List ℚ :=
  List.insertionSort (· ≤ ·) (emFracs rows)

/-- `Ehad = np.sort(...)`: the nonzero hadronic fractions in ascending
order. -/
def EhadT (rows : List DecayRow) : List ℚ :=
  List.insertionSort (· ≤ ·) (hadFracs rows)

/-- `Pem = Nem / Nshowers`: the empirical probability that a shower is
electromagnetic. -/
def PemQ (rows : List DecayRow) : ℚ := (NemT rows : ℚ) / (NshowersT rows : ℚ)

/-- The last entry of a list (default `0`): for an ascending-sorted nonempty
list this is its maximum. -/
def lastD (l : List ℚ) : ℚ := l.getD (l.length - 1) 0

/-- `tauola.sample_shower_type(N)`: draw `N` uniform values, start from an
all-`Hadronic` (zero) integer array and set the positions whose draw strictly
exceeds `Pem` to `Electromagnetic` (`stypes[u > Pem] = 1`). -/
def sample_shower_type (rows : List DecayRow) (N : ℕ) (u : ℕ → ℚ) : List ℕ :=
  (List.range N).map (fun i => if PemQ rows < u i then ShowerType.Electromagnetic
    else ShowerType.Hadronic)

/-- `tauola.sample_energy_fraction(stypes)`: one fresh uniform draw per
sample; a zero-initialised output where the electromagnetic positions receive
`np.interp(Nem * u, np.arange(Nem), Eem)` and the hadronic positions receive
`np.interp(Nhad * u, np.arange(Nhad), Ehad)` (positions whose type is neither
are never written and keep the initial `0`). -/
def sample_energy_fraction (rows : List DecayRow) (stypes : List ℕ) (u : ℕ → ℚ) : List ℚ :=
  (List.range stypes.length).map (fun i =>
    if stypes.getD i 0 = ShowerType.Electromagnetic then
      npInterpArange (EemT rows) ((NemT rows : ℚ) * u i)
    else if stypes.getD i 0 = ShowerType.Hadronic then
      npInterpArange (EhadT rows) ((NhadT rows : ℚ) * u i)
    else 0)

/-- `tauola.sample_tau_energies(Enu, N)`: sample `N` shower types, then the
matching energy fractions, and return `Enu * Efrac`. -/
def sample_tau_energies (rows : List DecayRow) (Enu : ℚ) (N : ℕ)
    (uType uFrac : ℕ → ℚ) : List ℚ :=
  (sample_energy_fraction rows (sample_shower_type rows N uType) uFrac).map
    (fun f => Enu * f)

/-- `tauola.sample_range(Etau) = np.random.exponential(4.9e-17 * Etau)`: one
exponential decay length (km) per tau energy, with mean `4.9e-17 * Etau`.
Draw `i` of the unit-mean exponential stream `uExp` is scaled by the requested
mean for entry `i`. -/
def sample_range (Etau : List ℚ) (uExp : ℕ → ℚ) : List ℚ :=
  (List.range Etau.length).map (fun i => 49 / 10 ^ 18 * Etau.getD i 0 * uExp i)

/-- Modelled from the spec: the orchestration calls
`tauola.sample_shower_energies(Etau, N=decay_length.size)`, a function that is
absent from the sampler module in the repository source (only its caller is
under `src/`).  Per the spec it applies `sample_shower_type` and
`sample_energy_fraction` element-wise across the input tau-energy array and
returns, per element, the tau energy multiplied by its own sampled
fraction. -/
def sample_shower_energies (rows : List DecayRow) (Etau : List ℚ) (N : ℕ)
    (uType uFrac : ℕ → ℚ) : List ℚ :=
  List.zipWith (fun E f => E * f) Etau
    (sample_energy_fraction rows (sample_shower_type rows N uType) uFrac)

/-! ## The effective-area event loop (`effective_area.py`) -/

/-- The trial batch produced by the external geometry collaborator
`geometry.geometric_area` (the fields of the `Ag` object that `calculate`
reads). -/
structure TrialBatch where
  emergence : List ℚ
  trials : List Vec3
  axis : Vec3
  area : ℚ
  dot : List ℚ
  stationsGeocentric : List Vec3
  stationsGeodetic : List Vec3
  orientations : List ℚ
  fov : List ℚ
  dbeacon : List (List ℚ)

/-- The argument record of one call to the external voltage model, in the
order and units of the source call site (angles already converted to
degrees where the source applies `np.rad2deg`). -/
structure VoltageArgs where
  decay_view : List ℚ
  exit_zenith : List ℚ
  decay_altitude : List ℚ
  decay_length : List ℚ
  decay_zenith : List ℚ
  decay_azimuth : List ℚ
  distance_to_decay : List ℚ
  detector_altitude : ℚ
  station_geodetic : Vec3
  dbeacon : List ℚ
  freqs : List ℚ
  Eshower : List ℚ
  antennas : ℕ
  theta : List ℚ
  phi_from_boresight : List ℚ
  fov : ℚ

/-- The external collaborators consumed by `calculate`: the tau-exit lookup,
the voltage model, the geometry module functions and the thermal noise
floor `antenna.Vrms`. -/
structure Collab where
  tauexit : List ℚ → List (Option ℚ) × List ℚ
  voltage : VoltageArgs → List (List ℚ)
  view_angle : List Vec3 → List Vec3 → Vec3 → List (List ℚ)
  decay_view : List Vec3 → Vec3 → Vec3 → List ℚ
  obs_zenith_azimuth : Vec3 → List Vec3 → Vec3 → List Vec3 → List ℚ × List ℚ
  cartesian_to_spherical : List Vec3 → List Vec3
  decay_zenith_azimuth : List Vec3 → Vec3 → List Vec3 → List Vec3 → List ℚ × List ℚ
  distance_to_horizon : ℚ → ℚ → ℚ
  horizon_angle : ℚ → ℚ → ℚ
  vrms : List ℚ → ℕ → ℚ

/-- The irrational real-number operations of the source, abstracted over ℚ:
`rad2deg` models `np.rad2deg` (multiplication by `180/pi`), `halfPi` models
the constant `np.pi/2`, and `norm3` models the Euclidean norm
`np.linalg.norm` of a 3-vector. -/
structure RealOps where
  rad2deg : ℚ → ℚ
  halfPi : ℚ
  norm3 : Vec3 → ℚ

/-- The scalar configuration parameters of `calculate` (the requested trial
count `N` is modelled as a single number; the per-station-array variant the
signature also admits is out of scope). -/
structure Params where
  maxview : ℚ
  N : ℚ
  antennas : ℕ
  freqs : List ℚ
  trigger_SNR : ℚ

/-- Number of stations: `Ag.stations["geocentric"].shape[0]`. -/
def nStations (Ag : TrialBatch) : ℕ := Ag.stationsGeocentric.length

/-- `90.0 - np.rad2deg(Ag.emergence)`: the zenith angles (degrees) keyed into
the tau-exit lookup. -/
def exitInputs (ops : RealOps) (Ag : TrialBatch) : List ℚ :=
  Ag.emergence.map (fun e => 90 - ops.rad2deg e)

/-- The per-trial exit probabilities returned by the tau-exit lookup
(`none` = masked, no tau exits at that angle). -/
def exitProbs (ops : RealOps) (co : Collab) (Ag : TrialBatch) : List (Option ℚ) :=
  (co.tauexit (exitInputs ops Ag)).1

/-- The per-trial exiting tau energies returned by the tau-exit lookup. -/
def exitEnergies (ops : RealOps) (co : Collab) (Ag : TrialBatch) : List ℚ :=
  (co.tauexit (exitInputs ops Ag)).2

/-- `decay_length = tauola.sample_range(Etau)`. -/
def decayLengths (ops : RealOps) (co : Collab) (Ag : TrialBatch) (uExp : ℕ → ℚ) : List ℚ :=
  sample_range (exitEnergies ops co Ag) uExp

/-- `decay_point = Ag.trials + (Ag.axis[:,None] * decay_length).T`: entry
point plus decay length along the shower axis, per trial. -/
def decayPoints (ops : RealOps) (co : Collab) (Ag : TrialBatch) (uExp : ℕ → ℚ) : List Vec3 :=
  List.zipWith (fun t L => add3 t (smul3 L Ag.axis)) Ag.trials
    (decayLengths ops co Ag uExp)

/-- `detector_altitude = np.linalg.norm(Ag.stations["geocentric"][i] - Re)`:
NOTE the numpy semantics — `Re` is a scalar, so the subtraction broadcasts it
across all three components of the geocentric position before the norm is
taken. -/
def detectorAltitude (ops : RealOps) (Re : ℚ) (g : Vec3) : ℚ :=
  ops.norm3 (sub3 g (Re, Re, Re))

/-- The body of the per-station loop of `calculate`: computes the in-sight
mask, the station/decay geometry, the voltage-model call, the SNR threshold
test and the horizon-masking statements, returning row `i` of `Ptrig` (one
trigger indicator per trial of the full batch). -/
def stationTrigRow (Re : ℚ) (ops : RealOps) (co : Collab) (pr : Params)
    (Ag : TrialBatch) (decay_length Eshower : List ℚ) (decay_point : List Vec3)
    (decay_altitude exit_zenith : List ℚ) (decay_point_spherical : List Vec3)
    (decay_zenith decay_azimuth : List ℚ) (vrms : ℚ)
    (ground_view : List (List ℚ)) (i : ℕ) : List ℚ :=
  let g := Ag.stationsGeocentric.getD i (0, 0, 0)
  let in_sight := (ground_view.getD i []).map (fun v => if v ≤ pr.maxview then true else false)
  let dpSel := maskedSelect decay_point in_sight
  let distance_to_decay := dpSel.map (fun p => ops.norm3 (sub3 g p))
  let dView := co.decay_view dpSel Ag.axis g
  let thetaPhi := co.obs_zenith_azimuth g dpSel (Ag.stationsGeodetic.getD i (0, 0, 0))
    (maskedSelect decay_point_spherical in_sight)
  let theta := thetaPhi.1
  let phi_from_boresight := thetaPhi.2.map (fun p => p - Ag.orientations.getD i 0)
  let dAlt := detectorAltitude ops Re g
  let V := co.voltage
    { decay_view := dView.map ops.rad2deg
      exit_zenith := exit_zenith.map ops.rad2deg
      decay_altitude := maskedSelect decay_altitude in_sight
      decay_length := maskedSelect decay_length in_sight
      decay_zenith := (maskedSelect decay_zenith in_sight).map ops.rad2deg
      decay_azimuth := (maskedSelect decay_azimuth in_sight).map ops.rad2deg
      distance_to_decay := distance_to_decay
      detector_altitude := dAlt
      station_geodetic := Ag.stationsGeodetic.getD i (0, 0, 0)
      dbeacon := maskedSelect (Ag.dbeacon.getD i []) in_sight
      freqs := pr.freqs
      Eshower := maskedSelect Eshower in_sight
      antennas := pr.antennas
      theta := theta.map ops.rad2deg
      phi_from_boresight := phi_from_boresight.map ops.rad2deg
      fov := Ag.fov.getD i 0 }
  let SNR := V.map (fun vrow => vrow.sum / vrms)
  let row1 := maskedAssign (List.replicate Ag.trials.length 0) in_sight
    (SNR.map (fun s => if pr.trigger_SNR < s then (1 : ℚ) else 0))
  let elev := theta.map (fun t => ops.halfPi - t)
  let horizon_distance := co.distance_to_horizon dAlt Re
  let beyond := distance_to_decay.map (fun d => if horizon_distance < d then true else false)
  let below := elev.map (fun e => if e < co.horizon_angle dAlt Re then true else false)
  let invisible := List.zipWith (fun a b => a && b) beyond below
  let row2 := chainedMaskAssign row1 in_sight invisible 0
  chainedMaskAssign row2 in_sight (elev.map (fun e => if 0 < e then true else false)) 0

/-- All rows of `Ptrig`: the per-station loop. -/
def ptrigAll (Re : ℚ) (rows : List DecayRow) (ops : RealOps) (co : Collab) (pr : Params)
    (uType uFrac uExp : ℕ → ℚ) (Ag : TrialBatch) : List (List ℚ) :=
  let Etau := exitEnergies ops co Ag
  let decay_length := decayLengths ops co Ag uExp
  let Eshower := sample_shower_energies rows Etau decay_length.length uType uFrac
  let decay_point := decayPoints ops co Ag uExp
  let decay_altitude := decay_point.map (fun p => ops.norm3 p - Re)
  let exit_zenith := Ag.emergence.map (fun e => ops.halfPi - e)
  let decay_point_spherical := co.cartesian_to_spherical decay_point
  let axis_spherical := co.cartesian_to_spherical [Ag.axis]
  let dza := co.decay_zenith_azimuth decay_point Ag.axis decay_point_spherical axis_spherical
  let vrms := co.vrms pr.freqs pr.antennas
  let ground_view := co.view_angle Ag.trials Ag.stationsGeocentric Ag.axis
  (List.range (nStations Ag)).map
    (stationTrigRow Re ops co pr Ag decay_length Eshower decay_point decay_altitude
      exit_zenith decay_point_spherical dza.1 dza.2 vrms ground_view)

/-- `Pdet = np.sum(Ptrig, axis=0) > 0`: per trial, `1` when the column sum of
the station trigger indicators is strictly positive, else `0` (as the float
array the aggregation step multiplies with). -/
def pdetFlags (rowsP : List (List ℚ)) (nT : ℕ) : List ℚ :=
  (List.range nT).map (fun j =>
    if 0 < (rowsP.map (fun r => r.getD j 0)).sum then (1 : ℚ) else 0)

/-- `np.sum(Ag.area * Ag.dot * Pexit * Pdet)`: the elementwise product summed
over trials; a masked exit probability makes its whole term drop out of the
sum (`np.sum` of a masked array skips masked entries, which contributes
nothing — numerically a zero term). -/
def maskedWeightedSum (area : ℚ) (dot : List ℚ) (Pexit : List (Option ℚ))
    (Pdet : List ℚ) : ℚ :=
  (List.zipWith (fun d pq => match pq.1 with
    | none => 0
    | some p => area * d * p * pq.2) dot (Pexit.zip Pdet)).sum

/-- `effective_area.calculate`: the top-level event loop.  If the geometric
trial batch is empty (`Ag.emergence.size == 0`) the four coefficients are all
zero; otherwise the exit probabilities are looked up, decay lengths and
shower energies are sampled, the per-station trigger loop runs, and the four
aggregation formulas of the source are applied.  Returns
`[geometric, pexit, pdet, effective_area]`. -/
def calculate (Re : ℚ) (rows : List DecayRow) (ops : RealOps) (co : Collab)
    (pr : Params) (uType uFrac uExp : ℕ → ℚ) (Ag : TrialBatch) : List ℚ :=
  if Ag.emergence.length = 0 then [0, 0, 0, 0]
  else
    let Pexit := exitProbs ops co Ag
    let Ptrig := ptrigAll Re rows ops co pr uType uFrac uExp Ag
    let Pdet := pdetFlags Ptrig Ag.trials.length
    let geometric := Ag.area * Ag.dot.sum / (pr.N * (nStations Ag : ℚ))
    let pexit := maskedMean Pexit
    let pdet := Pdet.sum / (Ag.trials.length : ℚ)
    let effective_area :=
      maskedWeightedSum Ag.area Ag.dot Pexit Pdet / (pr.N * (nStations Ag : ℚ))
    [geometric, pexit, pdet, effective_area]

/-! ## Claim-side aggregation formulas

Written from the wording of the spec (claim C3), to be compared with the
aggregation the source performs. -/

/-- Claim wording: geometric area coefficient = total geometric area weight
times the sum of dot weights, over `N * station_count`. -/
def specGeometric (area : ℚ) (dot : List ℚ) (N M : ℚ) : ℚ := area * dot.sum / (N * M)

/-- Claim wording: mean of the per-trial exit probabilities with the masked
entries excluded from the mean (sum of the defined entries over their
count). -/
def specPexit (ps : List (Option ℚ)) : ℚ :=
  (ps.filterMap id).sum / ((ps.filterMap id).length : ℚ)

/-- Claim wording: a trial detects when at least one station's trigger
indicator is true (logical OR across stations). -/
def specDetFlag (rowsP : List (List ℚ)) (j : ℕ) : ℚ :=
  if ∃ r ∈ rowsP, r.getD j 0 = 1 then 1 else 0

/-- Claim wording: `pdet` = fraction of trials for which at least one
station's trigger indicator is true. -/
def specPdet (rowsP : List (List ℚ)) (nT : ℕ) : ℚ :=
  ((List.range nT).map (specDetFlag rowsP)).sum / (nT : ℚ)

/-- Claim wording: effective area = sum over trials of
`area_weight * dot_weight * exit_probability * detection_indicator` over
`N * station_count`, masked exit-probability entries excluded from the
sum. -/
def specEffArea (area : ℚ) (dot : List ℚ) (ps : List (Option ℚ))
    (rowsP : List (List ℚ)) (nT : ℕ) (N M : ℚ) : ℚ :=
  (List.zipWith (fun d pq => match pq.1 with
    | none => 0
    | some p => area * d * p * pq.2) dot
      (ps.zip ((List.range nT).map (specDetFlag rowsP)))).sum / (N * M)

/-! ## General lemmas -/

/-- `getD` of a map over `List.range`. -/
theorem getD_map_range {α : Type} (d : α) (n i : ℕ) (f : ℕ → α) (hi : i < n) :
    ((List.range n).map f).getD i d = f i := by
  have hlen : i < ((List.range n).map f).length := by simpa using hi
  rw [List.getD_eq_getElem _ _ hlen, List.getElem_map]
  simp [List.getElem_range]

/-- A chained boolean-mask assignment never changes the base array. -/
theorem chainedMaskAssign_eq (arr : List ℚ) (mask1 mask2 : List Bool) (v : ℚ) :
    chainedMaskAssign arr mask1 mask2 v = arr := rfl

/-- Every entry of a mask assignment comes from the original array or from
the assigned values. -/
theorem mem_maskedAssign {arr : List ℚ} {ms : List Bool} {vs : List ℚ} :
    ∀ x ∈ maskedAssign arr ms vs, x ∈ arr ∨ x ∈ vs := by
  induction arr generalizing ms vs with
  | nil => simp [maskedAssign]
  | cons a arr ih =>
    cases ms with
    | nil =>
      intro x hx
      rw [maskedAssign] at hx
      exact Or.inl hx
    | cons b ms =>
      cases b with
      | true =>
        cases vs with
        | nil =>
          intro x hx
          rw [maskedAssign] at hx
          rcases List.mem_cons.mp hx with h | h
          · exact Or.inl (h ▸ List.mem_cons_self a arr)
          · rcases ih x h with h2 | h2
            · exact Or.inl (List.mem_cons_of_mem a h2)
            · simp at h2
        | cons v vs =>
          intro x hx
          rw [maskedAssign] at hx
          rcases List.mem_cons.mp hx with h | h
          · exact Or.inr (h ▸ List.mem_cons_self v vs)
          · rcases ih x h with h2 | h2
            · exact Or.inl (List.mem_cons_of_mem a h2)
            · exact Or.inr (List.mem_cons_of_mem v h2)
      | false =>
        intro x hx
        rw [maskedAssign] at hx
        rcases List.mem_cons.mp hx with h | h
        · exact Or.inl (h ▸ List.mem_cons_self a arr)
        · rcases ih x h with h2 | h2
          · exact Or.inl (List.mem_cons_of_mem a h2)
          · exact Or.inr h2

/-- Sorted lists are monotone in `getD`. -/
theorem sorted_getD_mono {l : List ℚ} (hs : List.Sorted (· ≤ ·) l) {i j : ℕ}
    (hij : i ≤ j) (hj : j < l.length) : l.getD i 0 ≤ l.getD j 0 := by
  rcases eq_or_lt_of_le hij with rfl | hlt
  · exact le_refl _
  · rw [List.getD_eq_getElem l 0 (lt_trans hlt hj), List.getD_eq_getElem l 0 hj]
    exact List.pairwise_iff_get.mp hs ⟨i, lt_trans hlt hj⟩ ⟨j, hj⟩ hlt

/-- An in-range `getD` is a member of the list. -/
theorem getD_mem {α : Type} (l : List α) (d : α) {j : ℕ} (hj : j < l.length) :
    l.getD j d ∈ l := by
  rw [List.getD_eq_getElem l d hj]
  exact List.getElem_mem hj

/-- `getD` of a list all of whose entries are `0` or `1` is `0` or `1`. -/
theorem getD_zero_or_one {r : List ℚ} (h : ∀ x ∈ r, x = 0 ∨ x = 1) (j : ℕ) :
    r.getD j 0 = 0 ∨ r.getD j 0 = 1 := by
  by_cases hj : j < r.length
  · exact h _ (getD_mem r 0 hj)
  · exact Or.inl (List.getD_eq_default r 0 (le_of_not_lt hj))

/-- A list of `0`/`1` entries has a positive sum exactly when some entry is
`1`. -/
theorem sum_pos_iff_exists_one {l : List ℚ} (h : ∀ x ∈ l, x = 0 ∨ x = 1) :
    0 < l.sum ↔ ∃ x ∈ l, x = 1 := by
  induction l with
  | nil => simp
  | cons a l ih =>
    have ha := h a (List.mem_cons_self a l)
    have hl : ∀ x ∈ l, x = 0 ∨ x = 1 := fun x hx => h x (List.mem_cons_of_mem a hx)
    have hnn : 0 ≤ l.sum := List.sum_nonneg (fun x hx => by
      rcases hl x hx with rfl | rfl
      · exact le_refl 0
      · norm_num)
    rw [List.sum_cons]
    constructor
    · intro hp
      rcases ha with rfl | rfl
      · rw [zero_add] at hp
        obtain ⟨x, hx, hx1⟩ := (ih hl).mp hp
        exact ⟨x, List.mem_cons_of_mem 0 hx, hx1⟩
      · exact ⟨1, List.mem_cons_self 1 l, rfl⟩
    · intro hex
      rcases ha with rfl | rfl
      · rw [zero_add]
        obtain ⟨x, hx, hx1⟩ := hex
        rcases List.mem_cons.mp hx with h0 | hmem
        · rw [hx1] at h0
          norm_num at h0
        · exact (ih hl).mpr ⟨x, hmem, hx1⟩
      · have : (0:ℚ) < 1 := by norm_num
        linarith

/-- Every per-station trigger row entry is `0` or `1`: the row starts as
zeros, the in-sight positions receive the boolean threshold test, and the
two horizon-masking statements are chained-indexing no-ops. -/
theorem stationTrigRow_mem (Re : ℚ) (ops : RealOps) (co : Collab) (pr : Params)
    (Ag : TrialBatch) (dl Es : List ℚ) (dp : List Vec3) (da ez : List ℚ)
    (dps : List Vec3) (dz daz : List ℚ) (vr : ℚ) (gv : List (List ℚ)) (i : ℕ) :
    ∀ x ∈ stationTrigRow Re ops co pr Ag dl Es dp da ez dps dz daz vr gv i,
      x = 0 ∨ x = 1 := by
  intro x hx
  simp only [stationTrigRow, chainedMaskAssign] at hx
  rcases mem_maskedAssign x hx with h | h
  · exact Or.inl (List.eq_of_mem_replicate h)
  · rcases List.mem_map.mp h with ⟨s, _, hs⟩
    by_cases hc : pr.trigger_SNR < s
    · rw [if_pos hc] at hs
      exact Or.inr hs.symm
    · rw [if_neg hc] at hs
      exact Or.inl hs.symm

/-- Every entry of every `Ptrig` row is `0` or `1`. -/
theorem ptrigAll_mem (Re : ℚ) (rows : List DecayRow) (ops : RealOps) (co : Collab)
    (pr : Params) (uT uF uE : ℕ → ℚ) (Ag : TrialBatch) :
    ∀ r ∈ ptrigAll Re rows ops co pr uT uF uE Ag, ∀ x ∈ r, x = 0 ∨ x = 1 := by
  intro r hr
  simp only [ptrigAll, List.mem_map] at hr
  obtain ⟨i, _, rfl⟩ := hr
  exact stationTrigRow_mem _ _ _ _ _ _ _ _ _ _ _ _ _ _ _ _

/-- Every detection flag is `0` or `1`. -/
theorem pdetFlags_mem (rowsP : List (List ℚ)) (nT : ℕ) :
    ∀ x ∈ pdetFlags rowsP nT, x = 0 ∨ x = 1 := by
  intro x hx
  simp only [pdetFlags, List.mem_map] at hx
  obtain ⟨j, _, rfl⟩ := hx
  by_cases hc : 0 < (rowsP.map (fun r => r.getD j 0)).sum
  · exact Or.inr (if_pos hc)
  · exact Or.inl (if_neg hc)

/-- When every trigger-row entry is `0` or `1`, the source's detection flags
(`np.sum(Ptrig, axis=0) > 0`) coincide with the claim's logical OR across
stations. -/
theorem pdetFlags_eq_spec {rowsP : List (List ℚ)}
    (h : ∀ r ∈ rowsP, ∀ x ∈ r, x = 0 ∨ x = 1) (nT : ℕ) :
    pdetFlags rowsP nT = (List.range nT).map (specDetFlag rowsP) := by
  unfold pdetFlags specDetFlag
  apply List.map_congr_left
  intro j _
  apply if_congr _ rfl rfl
  have hcol : ∀ x ∈ rowsP.map (fun r => r.getD j 0), x = 0 ∨ x = 1 := by
    intro x hx
    rcases List.mem_map.mp hx with ⟨r, hr, rfl⟩
    exact getD_zero_or_one (h r hr) j
  rw [sum_pos_iff_exists_one hcol]
  constructor
  · intro hex
    obtain ⟨x, hx, hx1⟩ := hex
    rcases List.mem_map.mp hx with ⟨r, hr, rfl⟩
    exact ⟨r, hr, hx1⟩
  · intro hex
    obtain ⟨r, hr, hr1⟩ := hex
    exact ⟨r.getD j 0, List.mem_map.mpr ⟨r, hr, rfl⟩, hr1⟩

/-! ## Concrete instances used by witnesses -/

/-- A concrete two-row decay table: row 1 has both a hadronic and an
electromagnetic shower, row 2 an electromagnetic one only. -/
def rowsW : List DecayRow :=
  [{ nu_tau := 0, nu_mu := 0, nu_e := 0, hadron := 1/2, muon := 0, electron := 1/4 },
   { nu_tau := 0, nu_mu := 0, nu_e := 0, hadron := 0, muon := 0, electron := 3/4 }]

/-- A constant uniform stream. -/
def uHalf : ℕ → ℚ := fun _ => 1/2

/-- Concrete real-operation instance for empty-batch runs (no norm or angle
value is ever consumed). -/
def opsW : RealOps := { rad2deg := fun x => x, halfPi := 157/100, norm3 := fun _ => 0 }

/-- A trivial collaborator set (used where the run never reaches them or
where any value is acceptable). -/
def coTrivial : Collab :=
  { tauexit := fun l => (l.map (fun _ => none), l)
    voltage := fun _ => []
    view_angle := fun _ _ _ => []
    decay_view := fun _ _ _ => []
    obs_zenith_azimuth := fun _ _ _ _ => ([], [])
    cartesian_to_spherical := fun l => l
    decay_zenith_azimuth := fun _ _ _ _ => ([], [])
    distance_to_horizon := fun _ _ => 0
    horizon_angle := fun _ _ => 0
    vrms := fun _ _ => 1 }

/-- Default scalar parameters (source defaults where rational). -/
def prW : Params := { maxview := 1, N := 1, antennas := 4, freqs := [35], trigger_SNR := 5 }

/-- An empty trial batch (the geometry collaborator found no valid
trials). -/
def AgEmpty : TrialBatch :=
  { emergence := [], trials := [], axis := (1, 0, 0), area := 0, dot := []
    stationsGeocentric := [], stationsGeodetic := [], orientations := []
    fov := [], dbeacon := [] }

/-! ## C1: empty trial batch -/

/-- C1: whenever the geometric trial batch is empty, `calculate` returns
exactly `[0, 0, 0, 0]`.  The statement quantifies over ALL collaborator
oracles and ALL random streams, so the result does not depend on the
exit-probability lookup, the decay sampler streams, or any per-station
trigger evaluation — none of them can influence (and in the source none is
reached on) this path. -/
theorem calculate_empty_batch (Re : ℚ) (rows : List DecayRow) (ops : RealOps)
    (co : Collab) (pr : Params) (uT uF uE : ℕ → ℚ) (Ag : TrialBatch)
    (h : Ag.emergence = []) :
    calculate Re rows ops co pr uT uF uE Ag = [0, 0, 0, 0] := by
  simp [calculate, h]

/-- Witness for C1 at a concrete empty batch. -/
theorem calculate_empty_batch_witness :
    AgEmpty.emergence = [] ∧
    calculate 6371 rowsW opsW coTrivial prW uHalf uHalf uHalf AgEmpty = [0, 0, 0, 0] :=
  ⟨rfl, calculate_empty_batch 6371 rowsW opsW coTrivial prW uHalf uHalf uHalf AgEmpty rfl⟩

/-! ## C6: shower-type sampling -/

/-- C6: `sample_shower_type` returns an integer category array of length
exactly `count`; entry `i` is `Electromagnetic` (1) precisely when its fresh
uniform draw strictly exceeds `Pem = Nem / Nshowers`, and `Hadronic` (0),
the default category, otherwise. -/
theorem sample_shower_type_spec (rows : List DecayRow) (N : ℕ) (u : ℕ → ℚ) :
    (sample_shower_type rows N u).length = N ∧
    ∀ i, i < N →
      ((sample_shower_type rows N u).getD i 0 = ShowerType.Electromagnetic ↔
        PemQ rows < u i) ∧
      ((sample_shower_type rows N u).getD i 0 = ShowerType.Hadronic ↔
        ¬ PemQ rows < u i) := by
  constructor
  · simp [sample_shower_type]
  · intro i hi
    have hval : (sample_shower_type rows N u).getD i 0 =
        if PemQ rows < u i then ShowerType.Electromagnetic else ShowerType.Hadronic :=
      getD_map_range 0 N i _ hi
    rw [hval]
    by_cases hc : PemQ rows < u i
    · rw [if_pos hc]
      constructor
      · exact ⟨fun _ => hc, fun _ => rfl⟩
      · constructor
        · intro hek
          norm_num [ShowerType.Electromagnetic, ShowerType.Hadronic] at hek
        · intro hnc
          exact absurd hc hnc
    · rw [if_neg hc]
      constructor
      · constructor
        · intro hek
          norm_num [ShowerType.Electromagnetic, ShowerType.Hadronic] at hek
        · intro hcc
          exact absurd hcc hc
      · exact ⟨fun _ => hc, fun _ => rfl⟩

/-- Witness for C6 at a concrete table and draw stream. -/
theorem sample_shower_type_spec_witness :
    (sample_shower_type rowsW 3 uHalf).length = 3 ∧
    ∀ i, i < 3 →
      ((sample_shower_type rowsW 3 uHalf).getD i 0 = ShowerType.Electromagnetic ↔
        PemQ rowsW < uHalf i) ∧
      ((sample_shower_type rowsW 3 uHalf).getD i 0 = ShowerType.Hadronic ↔
        ¬ PemQ rowsW < uHalf i) :=
  sample_shower_type_spec rowsW 3 uHalf

/-! ## C10: unrecognised shower types -/

/-- C10: a position of the input whose shower type is neither `Hadronic` (0)
nor `Electromagnetic` (1) is never written by `sample_energy_fraction`, so
its zero-initialised output entry stays exactly `0`. -/
theorem sample_energy_fraction_unknown_type (rows : List DecayRow)
    (stypes : List ℕ) (u : ℕ → ℚ) (i : ℕ) (hi : i < stypes.length)
    (h1 : stypes.getD i 0 ≠ ShowerType.Electromagnetic)
    (h0 : stypes.getD i 0 ≠ ShowerType.Hadronic) :
    (sample_energy_fraction rows stypes u).getD i 0 = 0 := by
  rw [sample_energy_fraction, getD_map_range 0 stypes.length i _ hi]
  rw [if_neg h1, if_neg h0]

/-- Witness for C10: shower type `2` yields a zero fraction. -/
theorem sample_energy_fraction_unknown_type_witness :
    0 < ([2] : List ℕ).length ∧
    (sample_energy_fraction rowsW [2] uHalf).getD 0 0 = 0 :=
  ⟨by norm_num,
   sample_energy_fraction_unknown_type rowsW [2] uHalf 0 (by norm_num)
     (by norm_num [ShowerType.Electromagnetic]) (by norm_num [ShowerType.Hadronic])⟩

/-! ## C3: the aggregation formulas -/

/-- C3: for a non-empty batch of `N` trials and `M` stations, `calculate`
returns exactly
`[geometric, pexit, pdet, effective_area]` with
geometric `= area_weight * sum(dot) / (N * M)`,
pexit the mean of the exit probabilities with masked entries excluded,
pdet the fraction of trials with at least one triggering station (logical OR
across stations), and effective area the sum of
`area * dot * exit_probability * detection_indicator` over `N * M` with
masked exit probabilities excluded from the sum. -/
theorem calculate_aggregation (Re : ℚ) (rows : List DecayRow) (ops : RealOps)
    (co : Collab) (pr : Params) (uT uF uE : ℕ → ℚ) (Ag : TrialBatch)
    (hne : Ag.emergence.length ≠ 0)
    (hsize : pr.N = (Ag.trials.length : ℚ)) :
    calculate Re rows ops co pr uT uF uE Ag =
      [specGeometric Ag.area Ag.dot (Ag.trials.length : ℚ) (nStations Ag : ℚ),
       specPexit (exitProbs ops co Ag),
       specPdet (ptrigAll Re rows ops co pr uT uF uE Ag) Ag.trials.length,
       specEffArea Ag.area Ag.dot (exitProbs ops co Ag)
         (ptrigAll Re rows ops co pr uT uF uE Ag) Ag.trials.length
         (Ag.trials.length : ℚ) (nStations Ag : ℚ)] := by
  rw [calculate, if_neg hne]
  show [Ag.area * Ag.dot.sum / (pr.N * (nStations Ag : ℚ)),
        maskedMean (exitProbs ops co Ag),
        (pdetFlags (ptrigAll Re rows ops co pr uT uF uE Ag) Ag.trials.length).sum /
          (Ag.trials.length : ℚ),
        maskedWeightedSum Ag.area Ag.dot (exitProbs ops co Ag)
          (pdetFlags (ptrigAll Re rows ops co pr uT uF uE Ag) Ag.trials.length) /
          (pr.N * (nStations Ag : ℚ))] = _
  rw [pdetFlags_eq_spec (ptrigAll_mem Re rows ops co pr uT uF uE Ag) Ag.trials.length]
  rw [hsize]
  rfl

/-! ## Interpolation lemmas -/

/-- Linear interpolation with clamping stays between the first and the last
ordinate of an ascending-sorted sample list, for every abscissa. -/
theorem npInterpArange_bounds {E : List ℚ} (hne : E ≠ [])
    (hs : List.Sorted (· ≤ ·) E) (x : ℚ) :
    E.getD 0 0 ≤ npInterpArange E x ∧ npInterpArange E x ≤ lastD E := by
  have hlen : 0 < E.length := List.length_pos.mpr hne
  have hlen0 : ¬ E.length = 0 := Nat.pos_iff_ne_zero.mp hlen
  have hlast : E.length - 1 < E.length := by omega
  rw [npInterpArange, lastD, if_neg hlen0]
  by_cases h0 : x ≤ 0
  · rw [if_pos h0]
    exact ⟨le_refl _, sorted_getD_mono hs (Nat.zero_le _) hlast⟩
  · rw [if_neg h0]
    by_cases h1 : ((E.length : ℚ) - 1) ≤ x
    · rw [if_pos h1]
      exact ⟨sorted_getD_mono hs (Nat.zero_le _) hlast, le_refl _⟩
    · rw [if_neg h1]
      have hx0 : 0 < x := lt_of_not_le h0
      have hj0 : (0 : ℤ) ≤ ⌊x⌋ := Int.floor_nonneg.mpr (le_of_lt hx0)
      have hjcast : ((⌊x⌋.toNat : ℕ) : ℚ) = ((⌊x⌋ : ℤ) : ℚ) := by
        exact_mod_cast congrArg (fun z : ℤ => (z : ℚ)) (Int.toNat_of_nonneg hj0)
      have hjx : ((⌊x⌋.toNat : ℕ) : ℚ) ≤ x := by
        rw [hjcast]
        exact Int.floor_le x
      have hxj1 : x < ((⌊x⌋.toNat : ℕ) : ℚ) + 1 := by
        rw [hjcast]
        exact Int.lt_floor_add_one x
      have hjlen : ⌊x⌋.toNat + 1 < E.length := by
        have hxlt : x < (E.length : ℚ) - 1 := lt_of_not_le h1
        have : ((⌊x⌋.toNat : ℕ) : ℚ) < (E.length : ℚ) - 1 := lt_of_le_of_lt hjx hxlt
        have : ((⌊x⌋.toNat + 1 : ℕ) : ℚ) < (E.length : ℚ) := by push_cast; linarith
        exact_mod_cast this
      have hjle : ⌊x⌋.toNat < E.length := by omega
      have hab : E.getD ⌊x⌋.toNat 0 ≤ E.getD (⌊x⌋.toNat + 1) 0 :=
        sorted_getD_mono hs (Nat.le_succ _) hjlen
      have ht0 : 0 ≤ x - ((⌊x⌋.toNat : ℕ) : ℚ) := sub_nonneg.mpr hjx
      have ht1 : x - ((⌊x⌋.toNat : ℕ) : ℚ) ≤ 1 := by linarith
      have hterm0 : 0 ≤ (x - ((⌊x⌋.toNat : ℕ) : ℚ)) *
          (E.getD (⌊x⌋.toNat + 1) 0 - E.getD ⌊x⌋.toNat 0) :=
        mul_nonneg ht0 (sub_nonneg.mpr hab)
      have hterm1 : (x - ((⌊x⌋.toNat : ℕ) : ℚ)) *
          (E.getD (⌊x⌋.toNat + 1) 0 - E.getD ⌊x⌋.toNat 0) ≤
          E.getD (⌊x⌋.toNat + 1) 0 - E.getD ⌊x⌋.toNat 0 := by
        have := mul_le_mul_of_nonneg_right ht1 (sub_nonneg.mpr hab)
        linarith
      constructor
      · have hlow : E.getD 0 0 ≤ E.getD ⌊x⌋.toNat 0 :=
          sorted_getD_mono hs (Nat.zero_le _) hjle
        simp only []
        linarith
      · have hhigh : E.getD (⌊x⌋.toNat + 1) 0 ≤ E.getD (E.length - 1) 0 :=
          sorted_getD_mono hs (by omega) hlast
        simp only []
        linarith

/-- The last entry of a sorted nonempty list is its maximum. -/
theorem lastD_sorted_max {l : List ℚ} (hne : l ≠ []) (hs : List.Sorted (· ≤ ·) l) :
    lastD l ∈ l ∧ ∀ a ∈ l, a ≤ lastD l := by
  have hlen : 0 < l.length := List.length_pos.mpr hne
  have hlast : l.length - 1 < l.length := by omega
  constructor
  · exact getD_mem l 0 hlast
  · intro a ha
    obtain ⟨i, hia⟩ := List.mem_iff_get.mp ha
    have : l.getD i 0 = a := by
      rw [List.getD_eq_getElem l 0 i.isLt]
      simpa using hia
    rw [← this, lastD]
    exact sorted_getD_mono hs (by omega) hlast

/-- `EemT` is ascending-sorted. -/
theorem EemT_sorted (rows : List DecayRow) : List.Sorted (· ≤ ·) (EemT rows) :=
  List.sorted_insertionSort _ _

/-- `EhadT` is ascending-sorted. -/
theorem EhadT_sorted (rows : List DecayRow) : List.Sorted (· ≤ ·) (EhadT rows) :=
  List.sorted_insertionSort _ _

/-- Sorting permutes: `EemT` holds the same entries as the filtered electron
column. -/
theorem EemT_perm (rows : List DecayRow) : List.Perm (EemT rows) (emFracs rows) :=
  List.perm_insertionSort _ _

/-- Sorting permutes: `EhadT` holds the same entries as the filtered hadron
column. -/
theorem EhadT_perm (rows : List DecayRow) : List.Perm (EhadT rows) (hadFracs rows) :=
  List.perm_insertionSort _ _

/-- `EemT` has `Nem` entries. -/
theorem EemT_length (rows : List DecayRow) : (EemT rows).length = NemT rows :=
  (EemT_perm rows).length_eq

/-- `EhadT` has `Nhad` entries. -/
theorem EhadT_length (rows : List DecayRow) : (EhadT rows).length = NhadT rows :=
  (EhadT_perm rows).length_eq

/-- Every entry of `EemT` is positive (the filter keeps the positive
fractions only). -/
theorem EemT_pos (rows : List DecayRow) : ∀ a ∈ EemT rows, 0 < a := by
  intro a ha
  have hmem : a ∈ emFracs rows := (EemT_perm rows).mem_iff.mp ha
  exact of_decide_eq_true (List.mem_filter.mp hmem).2

/-- Every entry of `EhadT` is positive. -/
theorem EhadT_pos (rows : List DecayRow) : ∀ a ∈ EhadT rows, 0 < a := by
  intro a ha
  have hmem : a ∈ hadFracs rows := (EhadT_perm rows).mem_iff.mp ha
  exact of_decide_eq_true (List.mem_filter.mp hmem).2

/-- The last entry of `EemT` is the maximum of the category's reference
fractions. -/
theorem EemT_max (rows : List DecayRow) (h : 0 < NemT rows) :
    lastD (EemT rows) ∈ emFracs rows ∧ ∀ a ∈ emFracs rows, a ≤ lastD (EemT rows) := by
  have hlen : 0 < (EemT rows).length := by rw [EemT_length]; exact h
  have hne : EemT rows ≠ [] := List.length_pos.mp hlen
  obtain ⟨hmem, hmax⟩ := lastD_sorted_max hne (EemT_sorted rows)
  exact ⟨(EemT_perm rows).mem_iff.mp hmem,
    fun a ha => hmax a ((EemT_perm rows).mem_iff.mpr ha)⟩

/-- The last entry of `EhadT` is the maximum of the category's reference
fractions. -/
theorem EhadT_max (rows : List DecayRow) (h : 0 < NhadT rows) :
    lastD (EhadT rows) ∈ hadFracs rows ∧ ∀ a ∈ hadFracs rows, a ≤ lastD (EhadT rows) := by
  have hlen : 0 < (EhadT rows).length := by rw [EhadT_length]; exact h
  have hne : EhadT rows ≠ [] := List.length_pos.mp hlen
  obtain ⟨hmem, hmax⟩ := lastD_sorted_max hne (EhadT_sorted rows)
  exact ⟨(EhadT_perm rows).mem_iff.mp hmem,
    fun a ha => hmax a ((EhadT_perm rows).mem_iff.mpr ha)⟩

/-- Interpolation into a sorted all-positive nonempty list is positive and
bounded by the last (largest) entry. -/
theorem npInterpArange_pos_le {E : List ℚ} (hne : E ≠ [])
    (hs : List.Sorted (· ≤ ·) E) (hpos : ∀ a ∈ E, 0 < a) (x : ℚ) :
    0 < npInterpArange E x ∧ npInterpArange E x ≤ lastD E := by
  obtain ⟨hlow, hhigh⟩ := npInterpArange_bounds hne hs x
  have hlen : 0 < E.length := List.length_pos.mpr hne
  have h0 : 0 < E.getD 0 0 := hpos _ (getD_mem E 0 hlen)
  exact ⟨lt_of_lt_of_le h0 hlow, hhigh⟩

/-! ## C5: energy-fraction sampling -/

/-- C5: `sample_energy_fraction` returns one value per input type; for the
defined categories, sample `i` is the linear interpolation of the abscissa
`u_i * K` against the sample points `0..K-1` paired with the category's
ascending-sorted nonzero reference fractions (`K` the category count,
clamping outside `[0, K-1]`), and every returned value is strictly positive
and at most the category's largest reference fraction (the final two
conjuncts identify `lastD` of the sorted list as exactly that maximum). -/
theorem sample_energy_fraction_spec (rows : List DecayRow) (stypes : List ℕ)
    (u : ℕ → ℚ) (hem : 0 < NemT rows) (hhad : 0 < NhadT rows) :
    (sample_energy_fraction rows stypes u).length = stypes.length ∧
    (∀ i, i < stypes.length →
      (stypes.getD i 0 = ShowerType.Electromagnetic →
        (sample_energy_fraction rows stypes u).getD i 0 =
          npInterpArange (EemT rows) ((NemT rows : ℚ) * u i) ∧
        0 < (sample_energy_fraction rows stypes u).getD i 0 ∧
        (sample_energy_fraction rows stypes u).getD i 0 ≤ lastD (EemT rows)) ∧
      (stypes.getD i 0 = ShowerType.Hadronic →
        (sample_energy_fraction rows stypes u).getD i 0 =
          npInterpArange (EhadT rows) ((NhadT rows : ℚ) * u i) ∧
        0 < (sample_energy_fraction rows stypes u).getD i 0 ∧
        (sample_energy_fraction rows stypes u).getD i 0 ≤ lastD (EhadT rows))) ∧
    (lastD (EemT rows) ∈ emFracs rows ∧ ∀ a ∈ emFracs rows, a ≤ lastD (EemT rows)) ∧
    (lastD (EhadT rows) ∈ hadFracs rows ∧ ∀ a ∈ hadFracs rows, a ≤ lastD (EhadT rows)) := by
  have hEmNe : EemT rows ≠ [] := by
    apply List.length_pos.mp
    rw [EemT_length]
    exact hem
  have hHadNe : EhadT rows ≠ [] := by
    apply List.length_pos.mp
    rw [EhadT_length]
    exact hhad
  refine ⟨by simp [sample_energy_fraction], ?_, EemT_max rows hem, EhadT_max rows hhad⟩
  intro i hi
  have hval := getD_map_range (0 : ℚ) stypes.length i (fun i =>
    if stypes.getD i 0 = ShowerType.Electromagnetic then
      npInterpArange (EemT rows) ((NemT rows : ℚ) * u i)
    else if stypes.getD i 0 = ShowerType.Hadronic then
      npInterpArange (EhadT rows) ((NhadT rows : ℚ) * u i)
    else 0) hi
  constructor
  · intro hem_i
    rw [sample_energy_fraction, hval]
    simp only [hem_i, if_true]
    obtain ⟨hp, hb⟩ := npInterpArange_pos_le hEmNe (EemT_sorted rows) (EemT_pos rows)
      ((NemT rows : ℚ) * u i)
    exact ⟨trivial, hp, hb⟩
  · intro hhad_i
    rw [sample_energy_fraction, hval]
    simp only [hhad_i, if_true]
    rw [if_neg (show ¬ ShowerType.Hadronic = ShowerType.Electromagnetic by
      norm_num [ShowerType.Hadronic, ShowerType.Electromagnetic])]
    obtain ⟨hp, hb⟩ := npInterpArange_pos_le hHadNe (EhadT_sorted rows) (EhadT_pos rows)
      ((NhadT rows : ℚ) * u i)
    exact ⟨rfl, hp, hb⟩

/-- `getD` of `zipWith` inside both bounds. -/
theorem getD_zipWith (f : ℚ → ℚ → ℚ) (a b : List ℚ) (i : ℕ)
    (hia : i < a.length) (hib : i < b.length) :
    (List.zipWith f a b).getD i 0 = f (a.getD i 0) (b.getD i 0) := by
  have hlen : i < (List.zipWith f a b).length := by
    rw [List.length_zipWith]
    exact lt_min hia hib
  rw [List.getD_eq_getElem _ _ hlen, List.getElem_zipWith,
    List.getD_eq_getElem a 0 hia, List.getD_eq_getElem b 0 hib]

/-- Witness for C5 at a concrete table (`Nem = 2`, `Nhad = 1`) and the
constant half stream. -/
theorem sample_energy_fraction_spec_witness :
    0 < NemT rowsW ∧ 0 < NhadT rowsW ∧
    ((sample_energy_fraction rowsW [1, 0] uHalf).length = ([1, 0] : List ℕ).length ∧
    (∀ i, i < ([1, 0] : List ℕ).length →
      (([1, 0] : List ℕ).getD i 0 = ShowerType.Electromagnetic →
        (sample_energy_fraction rowsW [1, 0] uHalf).getD i 0 =
          npInterpArange (EemT rowsW) ((NemT rowsW : ℚ) * uHalf i) ∧
        0 < (sample_energy_fraction rowsW [1, 0] uHalf).getD i 0 ∧
        (sample_energy_fraction rowsW [1, 0] uHalf).getD i 0 ≤ lastD (EemT rowsW)) ∧
      (([1, 0] : List ℕ).getD i 0 = ShowerType.Hadronic →
        (sample_energy_fraction rowsW [1, 0] uHalf).getD i 0 =
          npInterpArange (EhadT rowsW) ((NhadT rowsW : ℚ) * uHalf i) ∧
        0 < (sample_energy_fraction rowsW [1, 0] uHalf).getD i 0 ∧
        (sample_energy_fraction rowsW [1, 0] uHalf).getD i 0 ≤ lastD (EhadT rowsW))) ∧
    (lastD (EemT rowsW) ∈ emFracs rowsW ∧ ∀ a ∈ emFracs rowsW, a ≤ lastD (EemT rowsW)) ∧
    (lastD (EhadT rowsW) ∈ hadFracs rowsW ∧
      ∀ a ∈ hadFracs rowsW, a ≤ lastD (EhadT rowsW))) := by
  have hem : 0 < NemT rowsW := by norm_num [NemT, emFracs, rowsW]
  have hhad : 0 < NhadT rowsW := by norm_num [NhadT, hadFracs, rowsW]
  exact ⟨hem, hhad, sample_energy_fraction_spec rowsW [1, 0] uHalf hem hhad⟩

/-! ## C4: element-wise shower-energy sampling -/

/-- C4: on an array of exiting tau energies, the orchestrated shower-energy
sampling produces exactly one sample per input energy, each equal to its own
tau energy times a fraction obtained by the documented two-step per-element
procedure (a `sample_shower_type` draw selecting the category, then a
`sample_energy_fraction` interpolation draw for that category). -/
theorem sample_shower_energies_spec (rows : List DecayRow) (Etau : List ℚ)
    (uT uF : ℕ → ℚ) (N : ℕ) (hN : N = Etau.length) :
    (sample_shower_energies rows Etau N uT uF).length = Etau.length ∧
    ∀ i, i < Etau.length →
      (sample_shower_energies rows Etau N uT uF).getD i 0 =
        Etau.getD i 0 *
          (if PemQ rows < uT i then npInterpArange (EemT rows) ((NemT rows : ℚ) * uF i)
           else npInterpArange (EhadT rows) ((NhadT rows : ℚ) * uF i)) := by
  subst hN
  have hsstlen : (sample_shower_type rows Etau.length uT).length = Etau.length := by
    simp [sample_shower_type]
  have hseflen : (sample_energy_fraction rows
      (sample_shower_type rows Etau.length uT) uF).length = Etau.length := by
    simp [sample_energy_fraction, hsstlen]
  constructor
  · simp [sample_shower_energies, hseflen]
  · intro i hi
    rw [sample_shower_energies, getD_zipWith _ _ _ i hi (by rw [hseflen]; exact hi)]
    congr 1
    have hsst : (sample_shower_type rows Etau.length uT).getD i 0 =
        if PemQ rows < uT i then ShowerType.Electromagnetic else ShowerType.Hadronic :=
      getD_map_range 0 Etau.length i _ hi
    have hsef := getD_map_range (0 : ℚ) (sample_shower_type rows Etau.length uT).length i
      (fun k =>
        if (sample_shower_type rows Etau.length uT).getD k 0 = ShowerType.Electromagnetic
        then npInterpArange (EemT rows) ((NemT rows : ℚ) * uF k)
        else if (sample_shower_type rows Etau.length uT).getD k 0 = ShowerType.Hadronic
        then npInterpArange (EhadT rows) ((NhadT rows : ℚ) * uF k)
        else 0) (by rw [hsstlen]; exact hi)
    rw [sample_energy_fraction, hsef]
    by_cases hc : PemQ rows < uT i
    · rw [if_pos hc]
      simp only [hsst, if_pos hc, if_true]
    · rw [if_neg hc]
      simp only [hsst, if_neg hc]
      simp [ShowerType.Hadronic, ShowerType.Electromagnetic]

/-- Witness for C4 on a concrete two-entry tau-energy array. -/
theorem sample_shower_energies_spec_witness :
    (2 : ℕ) = ([10, 20] : List ℚ).length ∧
    ((sample_shower_energies rowsW [10, 20] 2 uHalf uHalf).length =
      ([10, 20] : List ℚ).length ∧
    ∀ i, i < ([10, 20] : List ℚ).length →
      (sample_shower_energies rowsW [10, 20] 2 uHalf uHalf).getD i 0 =
        ([10, 20] : List ℚ).getD i 0 *
          (if PemQ rowsW < uHalf i then
            npInterpArange (EemT rowsW) ((NemT rowsW : ℚ) * uHalf i)
           else npInterpArange (EhadT rowsW) ((NhadT rowsW : ℚ) * uHalf i))) :=
  ⟨by norm_num, sample_shower_energies_spec rowsW [10, 20] uHalf uHalf 2 (by norm_num)⟩

/-- The masked mean of probabilities in `[0,1]` is in `[0,1]`. -/
theorem maskedMean_bounds {ps : List (Option ℚ)}
    (h : ∀ p ∈ ps.filterMap id, 0 ≤ p ∧ p ≤ 1) :
    0 ≤ maskedMean ps ∧ maskedMean ps ≤ 1 := by
  rw [maskedMean]
  rcases Nat.eq_zero_or_pos (ps.filterMap id).length with hz | hp
  · obtain hnil : ps.filterMap id = [] := List.length_eq_zero.mp hz
    rw [hnil]
    norm_num
  · have hsum0 : 0 ≤ (ps.filterMap id).sum :=
      List.sum_nonneg (fun x hx => (h x hx).1)
    have hsum1 : (ps.filterMap id).sum ≤ ((ps.filterMap id).length : ℚ) := by
      have := List.sum_le_card_nsmul (ps.filterMap id) 1 (fun x hx => (h x hx).2)
      simpa using this
    constructor
    · exact div_nonneg hsum0 (by positivity)
    · rw [div_le_one (by exact_mod_cast hp)]
      exact hsum1

/-- The mean of a `0`/`1` list over its own length is in `[0,1]` (the empty
list gives `0/0 = 0`). -/
theorem mean_flags_bounds {l : List ℚ} (h : ∀ x ∈ l, x = 0 ∨ x = 1) :
    0 ≤ l.sum / (l.length : ℚ) ∧ l.sum / (l.length : ℚ) ≤ 1 := by
  rcases Nat.eq_zero_or_pos l.length with hz | hp
  · obtain rfl : l = [] := List.length_eq_zero.mp hz
    norm_num
  · have h0 : ∀ x ∈ l, 0 ≤ x := fun x hx => by
      rcases h x hx with rfl | rfl
      · exact le_refl 0
      · norm_num
    have h1 : ∀ x ∈ l, x ≤ 1 := fun x hx => by
      rcases h x hx with rfl | rfl
      · norm_num
      · exact le_refl 1
    constructor
    · exact div_nonneg (List.sum_nonneg h0) (by positivity)
    · rw [div_le_one (by exact_mod_cast hp)]
      have := List.sum_le_card_nsmul l 1 h1
      simpa using this

/-- The detection-flag list has one entry per trial. -/
theorem pdetFlags_length (rowsP : List (List ℚ)) (nT : ℕ) :
    (pdetFlags rowsP nT).length = nT := by
  simp [pdetFlags]

/-- The masked weighted sum is nonnegative when the area, the dot weights,
the unmasked probabilities and the detection flags are nonnegative. -/
theorem maskedWeightedSum_nonneg {area : ℚ} {dot : List ℚ} {ps : List (Option ℚ)}
    {flags : List ℚ} (harea : 0 ≤ area) (hdot : ∀ d ∈ dot, 0 ≤ d)
    (hps : ∀ p ∈ ps.filterMap id, 0 ≤ p) (hfl : ∀ b ∈ flags, 0 ≤ b) :
    0 ≤ maskedWeightedSum area dot ps flags := by
  rw [maskedWeightedSum]
  induction dot generalizing ps flags with
  | nil => simp
  | cons d dot ih =>
    cases ps with
    | nil => simp
    | cons p ps =>
      cases flags with
      | nil => simp
      | cons b flags =>
        rw [List.zip_cons_cons, List.zipWith_cons_cons, List.sum_cons]
        have hd : 0 ≤ d := hdot d (List.mem_cons_self d dot)
        have hb : 0 ≤ b := hfl b (List.mem_cons_self b flags)
        have hterm : 0 ≤ (match (p, b).1 with
            | none => (0 : ℚ)
            | some q => area * d * q * (p, b).2) := by
          cases p with
          | none => exact le_refl 0
          | some q =>
            have hq : 0 ≤ q := by
              apply hps q
              rw [List.filterMap_cons]
              exact List.mem_cons_self q _
            exact mul_nonneg (mul_nonneg (mul_nonneg harea hd) hq) hb
        have hrest : 0 ≤ (List.zipWith (fun d pq => match pq.1 with
            | none => (0 : ℚ)
            | some p => area * d * p * pq.2) dot (ps.zip flags)).sum := by
          apply ih (fun x hx => hdot x (List.mem_cons_of_mem d hx))
          · intro q hq
            apply hps q
            rw [List.filterMap_cons]
            cases p with
            | none => exact hq
            | some r => exact List.mem_cons_of_mem r hq
          · exact fun x hx => hfl x (List.mem_cons_of_mem b hx)
        linarith

/-! ## C9: output bounds (amended) -/

/-- C9 (amended): assuming the exit-probability collaborator returns
unmasked probabilities in `[0,1]`, the geometry collaborator returns a
nonnegative area weight and nonnegative dot weights, AND — as the
counterexample below forces — the requested trial count is positive (with at
least one station, as the spec's data model assumes), the returned `pexit`
and `pdet` lie in `[0,1]` and `geometric` and `effective_area` are `≥ 0`. -/
theorem calculate_bounds (Re : ℚ) (rows : List DecayRow) (ops : RealOps)
    (co : Collab) (pr : Params) (uT uF uE : ℕ → ℚ) (Ag : TrialBatch)
    (harea : 0 ≤ Ag.area)
    (hdot : ∀ d ∈ Ag.dot, 0 ≤ d)
    (hpe : ∀ p ∈ (exitProbs ops co Ag).filterMap id, 0 ≤ p ∧ p ≤ 1)
    (hN : 0 < pr.N)
    (hM : 1 ≤ nStations Ag) :
    0 ≤ (calculate Re rows ops co pr uT uF uE Ag).getD 0 0 ∧
    (0 ≤ (calculate Re rows ops co pr uT uF uE Ag).getD 1 0 ∧
      (calculate Re rows ops co pr uT uF uE Ag).getD 1 0 ≤ 1) ∧
    (0 ≤ (calculate Re rows ops co pr uT uF uE Ag).getD 2 0 ∧
      (calculate Re rows ops co pr uT uF uE Ag).getD 2 0 ≤ 1) ∧
    0 ≤ (calculate Re rows ops co pr uT uF uE Ag).getD 3 0 := by
  by_cases hne : Ag.emergence.length = 0
  · rw [calculate, if_pos hne]
    norm_num
  · have hMQ : (0 : ℚ) < (nStations Ag : ℚ) := by
      exact_mod_cast lt_of_lt_of_le Nat.zero_lt_one hM
    have hden : (0 : ℚ) < pr.N * (nStations Ag : ℚ) := mul_pos hN hMQ
    have hc : calculate Re rows ops co pr uT uF uE Ag =
        [Ag.area * Ag.dot.sum / (pr.N * (nStations Ag : ℚ)),
         maskedMean (exitProbs ops co Ag),
         (pdetFlags (ptrigAll Re rows ops co pr uT uF uE Ag) Ag.trials.length).sum /
           (Ag.trials.length : ℚ),
         maskedWeightedSum Ag.area Ag.dot (exitProbs ops co Ag)
           (pdetFlags (ptrigAll Re rows ops co pr uT uF uE Ag) Ag.trials.length) /
           (pr.N * (nStations Ag : ℚ))] := by
      rw [calculate, if_neg hne]
    rw [hc]
    have hflags01 := pdetFlags_mem (ptrigAll Re rows ops co pr uT uF uE Ag)
      Ag.trials.length
    have hpdet : 0 ≤ (pdetFlags (ptrigAll Re rows ops co pr uT uF uE Ag)
          Ag.trials.length).sum / (Ag.trials.length : ℚ) ∧
        (pdetFlags (ptrigAll Re rows ops co pr uT uF uE Ag)
          Ag.trials.length).sum / (Ag.trials.length : ℚ) ≤ 1 := by
      have := mean_flags_bounds hflags01
      rwa [pdetFlags_length] at this
    refine ⟨?_, ?_, ?_, ?_⟩
    · exact div_nonneg (mul_nonneg harea (List.sum_nonneg hdot)) (le_of_lt hden)
    · exact maskedMean_bounds hpe
    · exact hpdet
    · apply div_nonneg _ (le_of_lt hden)
      apply maskedWeightedSum_nonneg harea hdot (fun p hp => (hpe p hp).1)
      intro b hb
      rcases hflags01 b hb with rfl | rfl
      · exact le_refl 0
      · norm_num

/-! ## Concrete station scenario (horizon-masking and altitude bugs)

The geometry is chosen so that every `np.linalg.norm` the run reaches has an
exactly rational value: the decay point is the origin, the station sits at
`(9300, 10200, 6600)` with `9300^2 + 10200^2 + 6600^2 = 15300^2`, and with
`Re = 6600` the broadcast difference is `(2700, 3600, 0)` with
`2700^2 + 3600^2 + 0^2 = 4500^2`. -/

/-- The Euclidean norm on exactly the vectors this scenario reaches (each
value is the true Euclidean norm of its vector; all other vectors are never
evaluated by the run and default to 0). -/
def normW : Vec3 → ℚ := fun v =>
  if v = (0, 0, 0) then 0
  else if v = (9300, 10200, 6600) then 15300
  else if v = (2700, 3600, 0) then 4500
  else 0

/-- Real-operation instance for the station scenario. -/
def opsC2 : RealOps := { rad2deg := fun x => x, halfPi := 157/100, norm3 := normW }

/-- Unit exponential draws fixed at their mean. -/
def uExpW : ℕ → ℚ := fun _ => 1

/-- One-station, one-trial batch: the trial enters at `(-3, 0, 0)` along the
axis `(1, 0, 0)` and decays after 3 km at the origin. -/
def AgC2 : TrialBatch :=
  { emergence := [1/10]
    trials := [(-3, 0, 0)]
    axis := (1, 0, 0)
    area := 1
    dot := [1]
    stationsGeocentric := [(9300, 10200, 6600)]
    stationsGeodetic := [(1, 1, 1)]
    orientations := [0]
    fov := [1]
    dbeacon := [[1]] }

/-- Collaborators for the invisible-trial scenario: the tau always exits with
probability 1 and energy `3e18/49` eV (so the sampled decay length is exactly
3 km), the trial is in sight, the voltage model yields SNR 100, the station
zenith is 10 rad (elevation below the horizon angle 0) and the horizon is 1
km away (the 15300 km decay distance is far beyond it). -/
def coC2A : Collab :=
  { tauexit := fun _ => ([some 1], [3 * 10 ^ 18 / 49])
    voltage := fun _ => [[100]]
    view_angle := fun _ _ _ => [[0]]
    decay_view := fun _ _ _ => [0]
    obs_zenith_azimuth := fun _ _ _ _ => ([10], [0])
    cartesian_to_spherical := fun l => l
    decay_zenith_azimuth := fun _ _ _ _ => ([0], [0])
    distance_to_horizon := fun _ _ => 1
    horizon_angle := fun _ _ => 0
    vrms := fun _ _ => 1 }


/-- Collaborators for the positive-elevation scenario: as `coC2A` but the
station zenith to the decay point is 1 rad, so the station elevation is
`157/100 - 1 > 0` (above the local horizontal), and the horizon-depression
angle is far below every elevation so the trial is NOT behind the
horizon. -/
def coC2B : Collab :=
  { coC2A with
    obs_zenith_azimuth := fun _ _ _ _ => ([1], [0])
    horizon_angle := fun _ _ => -1000 }

/-! ## C2: the horizon-masking statements are no-ops (code bug) -/

/-- C2 (code bug): in scenario A the sole in-sight trial is beyond the
horizon (decay distance 15300 km, horizon distance 1 km) AND below the
station's horizon-depression angle (elevation `157/100 - 10 < 0`, horizon
angle 0), and in scenario B the trial's elevation `157/100 - 1` is positive;
in both the SNR is 100 against a threshold of 5.  The claim (and the source's
own comments) require the trigger indicator to be forced to 0 in both cases,
making `pdet = 0`; but the statements
`Ptrig[i][in_sight][invisible] = 0.0` and `Ptrig[i][in_sight][elev > 0] = 0.0`
assign into the COPY produced by boolean advanced indexing, so the code
leaves the indicators at 1 and both runs return `pdet = 1`
(`calculate = [1, 1, 1, 1]`).  The final conjunct certifies that the norm
oracle value 15300 used for the decay distance is the honest Euclidean
norm. -/
theorem horizon_masking_noop_bug :
    calculate 6600 rowsW opsC2 coC2A prW uHalf uHalf uExpW AgC2 = [1, 1, 1, 1] ∧
    calculate 6600 rowsW opsC2 coC2B prW uHalf uHalf uExpW AgC2 = [1, 1, 1, 1] ∧
    ((1 : ℚ) < 15300 ∧ (157/100 : ℚ) - 10 < 0) ∧
    (0 < (157/100 : ℚ) - 1) ∧
    (15300 : ℚ) ^ 2 = 9300 ^ 2 + 10200 ^ 2 + 6600 ^ 2 := by
  refine ⟨?_, ?_, by norm_num, by norm_num, by norm_num⟩ <;>
  norm_num [calculate, exitProbs, exitInputs, exitEnergies, decayLengths, sample_range,
    decayPoints, ptrigAll, stationTrigRow, detectorAltitude, nStations, pdetFlags,
    maskedWeightedSum, maskedMean, maskedSelect, maskedAssign, chainedMaskAssign,
    add3, sub3, smul3, opsC2, coC2A, coC2B, prW, AgC2, normW, uExpW, uHalf,
    List.range_succ, List.getD, List.filterMap_cons, List.filterMap_nil, id_eq]

/-! ## C7: the station-altitude computation (code bug) -/

/-- Echo collaborators: the voltage model returns the detector-altitude
argument it receives, so the aggregated trigger reveals the value that
`calculate` actually passes. -/
def coC7 : Collab := { coC2A with voltage := fun args => [[args.detector_altitude]] }

/-- Parameters with the trigger threshold below the buggy altitude 4500. -/
def prC7a : Params := { prW with trigger_SNR := 4000 }

/-- Parameters with the trigger threshold between the buggy altitude 4500 and
the claimed altitude 8700. -/
def prC7b : Params := { prW with trigger_SNR := 5000 }

/-- C7 (code bug): for the station at geocentric `(9300, 10200, 6600)` with
`Re = 6600`, the source computes
`np.linalg.norm(geocentric - Re) = norm (2700, 3600, 0) = 4500` (the scalar
`Re` is broadcast and subtracted componentwise BEFORE the norm), not the
claimed altitude above the reference surface
`norm (9300, 10200, 6600) - Re = 15300 - 6600 = 8700`.  The two `^ 2`
conjuncts certify both oracle norm values are honest Euclidean norms, and
the two `calculate` runs with an echoing voltage model show the value handed
to the voltage model triggers a 4000 threshold but not a 5000 one — i.e. it
is 4500, not 8700 (the same `detectorAltitude` value also feeds the
horizon-distance and horizon-angle computations in `stationTrigRow`). -/
theorem detector_altitude_bug :
    detectorAltitude opsC2 6600 (9300, 10200, 6600) = 4500 ∧
    opsC2.norm3 (9300, 10200, 6600) - 6600 = 8700 ∧
    detectorAltitude opsC2 6600 (9300, 10200, 6600) ≠
      opsC2.norm3 (9300, 10200, 6600) - 6600 ∧
    (4500 : ℚ) ^ 2 = 2700 ^ 2 + 3600 ^ 2 + 0 ^ 2 ∧
    (15300 : ℚ) ^ 2 = 9300 ^ 2 + 10200 ^ 2 + 6600 ^ 2 ∧
    calculate 6600 rowsW opsC2 coC7 prC7a uHalf uHalf uExpW AgC2 = [1, 1, 1, 1] ∧
    calculate 6600 rowsW opsC2 coC7 prC7b uHalf uHalf uExpW AgC2 = [1, 1, 0, 0] := by
  refine ⟨by norm_num [detectorAltitude, opsC2, normW, sub3],
    by norm_num [opsC2, normW], by norm_num [detectorAltitude, opsC2, normW, sub3],
    by norm_num, by norm_num, ?_, ?_⟩ <;>
  norm_num [calculate, exitProbs, exitInputs, exitEnergies, decayLengths, sample_range,
    decayPoints, ptrigAll, stationTrigRow, detectorAltitude, nStations, pdetFlags,
    maskedWeightedSum, maskedMean, maskedSelect, maskedAssign, chainedMaskAssign,
    add3, sub3, smul3, opsC2, coC2A, coC7, prW, prC7a, prC7b, AgC2, normW, uExpW, uHalf,
    List.range_succ, List.getD, List.filterMap_cons, List.filterMap_nil, id_eq]

/-! ## C8: no fail-fast validation (corrected) -/

/-- Parameters with a malformed (negative) requested trial count. -/
def prC8 : Params := { prW with N := -1 }

/-- Counterexample to C8 as stated: with the malformed trial count `N = -1`
(and otherwise well-formed arrays), `calculate` does NOT fail fast with a
descriptive error — it silently produces the numeric 4-vector
`[-1, 1, 1, -1]`, its sign corrupted by the negative normalisation. -/
theorem negative_trial_count_counterexample :
    calculate 6600 rowsW opsC2 coC2A prC8 uHalf uHalf uExpW AgC2 = [-1, 1, 1, -1] := by
  norm_num [calculate, exitProbs, exitInputs, exitEnergies, decayLengths, sample_range,
    decayPoints, ptrigAll, stationTrigRow, detectorAltitude, nStations, pdetFlags,
    maskedWeightedSum, maskedMean, maskedSelect, maskedAssign, chainedMaskAssign,
    add3, sub3, smul3, opsC2, coC2A, prW, prC8, AgC2, normW, uExpW, uHalf,
    List.range_succ, List.getD, List.filterMap_cons, List.filterMap_nil, id_eq]

/-- C8 (amended): the core performs no validation of the trial count; every
call with a negative `N` (on a nonempty batch with positive total weight and
at least one station) still returns a full numeric 4-vector, whose geometric
component is silently sign-flipped below zero instead of raising an
error. -/
theorem negative_trial_count_flows_through (Re : ℚ) (rows : List DecayRow)
    (ops : RealOps) (co : Collab) (pr : Params) (uT uF uE : ℕ → ℚ) (Ag : TrialBatch)
    (hne : Ag.emergence.length ≠ 0)
    (hN : pr.N < 0)
    (hw : 0 < Ag.area * Ag.dot.sum)
    (hM : 1 ≤ nStations Ag) :
    (calculate Re rows ops co pr uT uF uE Ag).length = 4 ∧
    (calculate Re rows ops co pr uT uF uE Ag).getD 0 0 < 0 := by
  have hMQ : (0 : ℚ) < (nStations Ag : ℚ) := by
    exact_mod_cast lt_of_lt_of_le Nat.zero_lt_one hM
  have hc : calculate Re rows ops co pr uT uF uE Ag =
      [Ag.area * Ag.dot.sum / (pr.N * (nStations Ag : ℚ)),
       maskedMean (exitProbs ops co Ag),
       (pdetFlags (ptrigAll Re rows ops co pr uT uF uE Ag) Ag.trials.length).sum /
         (Ag.trials.length : ℚ),
       maskedWeightedSum Ag.area Ag.dot (exitProbs ops co Ag)
         (pdetFlags (ptrigAll Re rows ops co pr uT uF uE Ag) Ag.trials.length) /
         (pr.N * (nStations Ag : ℚ))] := by
    rw [calculate, if_neg hne]
  rw [hc]
  constructor
  · rfl
  · show Ag.area * Ag.dot.sum / (pr.N * (nStations Ag : ℚ)) < 0
    exact div_neg_of_pos_of_neg hw (mul_neg_of_neg_of_pos hN hMQ)

/-- Witness for the amended C8 at the concrete malformed call. -/
theorem negative_trial_count_flows_through_witness :
    AgC2.emergence.length ≠ 0 ∧ prC8.N < 0 ∧
    ((calculate 6600 rowsW opsC2 coC2A prC8 uHalf uHalf uExpW AgC2).length = 4 ∧
     (calculate 6600 rowsW opsC2 coC2A prC8 uHalf uHalf uExpW AgC2).getD 0 0 < 0) :=
  ⟨by norm_num [AgC2], by norm_num [prC8, prW],
   negative_trial_count_flows_through 6600 rowsW opsC2 coC2A prC8 uHalf uHalf uExpW AgC2
     (by norm_num [AgC2]) (by norm_num [prC8, prW]) (by norm_num [AgC2])
     (by norm_num [nStations, AgC2])⟩

/-! ## C9: counterexample and witness -/

/-- One-station, one-trial batch with area weight 2 (otherwise as `AgC2`),
used to refute C9 as stated. -/
def AgC9 : TrialBatch := { AgC2 with area := 2 }

/-- Counterexample to C9 as stated: all the assumptions the claim names hold
— the exit probabilities are in `[0,1]` and the area and dot weights are
nonnegative — yet with the (unvalidated) trial count `N = -1` the returned
geometric component is `-2 < 0`.  A positivity assumption on `N` is needed,
which the amended theorem adds. -/
theorem calculate_bounds_counterexample :
    0 ≤ AgC9.area ∧ (∀ d ∈ AgC9.dot, 0 ≤ d) ∧
    (∀ p ∈ (exitProbs opsC2 coC2A AgC9).filterMap id, 0 ≤ p ∧ p ≤ 1) ∧
    (calculate 6600 rowsW opsC2 coC2A prC8 uHalf uHalf uExpW AgC9).getD 0 0 < 0 := by
  refine ⟨by norm_num [AgC9, AgC2], ?_, ?_, ?_⟩
  · intro d hd
    simp only [AgC9, AgC2] at hd
    simp at hd
    rw [hd]
    norm_num
  · intro p hp
    simp only [exitProbs, exitInputs, coC2A, AgC9, AgC2] at hp
    simp [List.filterMap_cons] at hp
    rw [hp]
    norm_num
  · norm_num [calculate, exitProbs, exitInputs, exitEnergies, decayLengths, sample_range,
      decayPoints, ptrigAll, stationTrigRow, detectorAltitude, nStations, pdetFlags,
      maskedWeightedSum, maskedMean, maskedSelect, maskedAssign, chainedMaskAssign,
      add3, sub3, smul3, opsC2, coC2A, prW, prC8, AgC9, AgC2, normW, uExpW, uHalf,
      List.range_succ, List.getD, List.filterMap_cons, List.filterMap_nil, id_eq]

/-- Witness for the amended C9 at a concrete well-formed call. -/
theorem calculate_bounds_witness :
    0 ≤ AgC2.area ∧ 0 < prW.N ∧
    (0 ≤ (calculate 6600 rowsW opsC2 coC2A prW uHalf uHalf uExpW AgC2).getD 0 0 ∧
    (0 ≤ (calculate 6600 rowsW opsC2 coC2A prW uHalf uHalf uExpW AgC2).getD 1 0 ∧
      (calculate 6600 rowsW opsC2 coC2A prW uHalf uHalf uExpW AgC2).getD 1 0 ≤ 1) ∧
    (0 ≤ (calculate 6600 rowsW opsC2 coC2A prW uHalf uHalf uExpW AgC2).getD 2 0 ∧
      (calculate 6600 rowsW opsC2 coC2A prW uHalf uHalf uExpW AgC2).getD 2 0 ≤ 1) ∧
    0 ≤ (calculate 6600 rowsW opsC2 coC2A prW uHalf uHalf uExpW AgC2).getD 3 0) :=
  ⟨by norm_num [AgC2], by norm_num [prW],
   calculate_bounds 6600 rowsW opsC2 coC2A prW uHalf uHalf uExpW AgC2
     (by norm_num [AgC2])
     (by
       intro d hd
       simp only [AgC2] at hd
       simp at hd
       rw [hd]
       norm_num)
     (by
       intro p hp
       simp only [exitProbs, exitInputs, coC2A, AgC2] at hp
       simp [List.filterMap_cons] at hp
       rw [hp]
       norm_num)
     (by norm_num [prW]) (by norm_num [nStations, AgC2])⟩

/-- Witness for C3 at the concrete one-trial, one-station call. -/
theorem calculate_aggregation_witness :
    AgC2.emergence.length ≠ 0 ∧ prW.N = (AgC2.trials.length : ℚ) ∧
    calculate 6600 rowsW opsC2 coC2A prW uHalf uHalf uExpW AgC2 =
      [specGeometric AgC2.area AgC2.dot (AgC2.trials.length : ℚ) (nStations AgC2 : ℚ),
       specPexit (exitProbs opsC2 coC2A AgC2),
       specPdet (ptrigAll 6600 rowsW opsC2 coC2A prW uHalf uHalf uExpW AgC2)
         AgC2.trials.length,
       specEffArea AgC2.area AgC2.dot (exitProbs opsC2 coC2A AgC2)
         (ptrigAll 6600 rowsW opsC2 coC2A prW uHalf uHalf uExpW AgC2) AgC2.trials.length
         (AgC2.trials.length : ℚ) (nStations AgC2 : ℚ)] :=
  ⟨by norm_num [AgC2], by norm_num [prW, AgC2],
   calculate_aggregation 6600 rowsW opsC2 coC2A prW uHalf uHalf uExpW AgC2
     (by norm_num [AgC2]) (by norm_num [prW, AgC2])⟩
